import Mathlib

/-!
A shallow embedding, in Lean, of the request-resolution and retrieval pipeline
of the Pageshelf gateway: URL resolution (`src/core/resolver.rs`, with the path
and subdomain analyses of `src/util.rs`), the page-source query helpers
(`src/core/pages.rs`), the forge-backed asset fetch
(`src/provider/forgejo/asset_direct.rs`), the cache layer
(`src/provider/layers/cache.rs`), the upstream scanner
(`src/provider/forgejo/scanner.rs`) and the HTTP dispatch of page assets
(`src/frontend/routes/pages.rs`), together with theorems settling the stated
properties of each of these components.

Rust strings are modelled as Lean `String` (a wrapper around `List Char`);
Rust `Option`/`Result` as `Option`/`Except`; async calls to collaborators
(the forge client, the cache connection) as explicit function arguments and
explicitly threaded state; a Rust panic as a `none` result.
-/

/- ----------------------------------------------------------------------- -/
/- Rust string primitives, modelled over `String.data` (a `List Char`).    -/
/- ----------------------------------------------------------------------- -/

/-- Model of Rust `str::split` on a one-character separator, over `List Char`:
`"a.b"` splits to `["a", "b"]`, `""` to `[""]`, `"."` to `["", ""]`. -/
def splitChar (c : Char) : List Char → List (List Char)
  | [] => [[]]
  | x :: xs =>
    let r := splitChar c xs
    if x = c then [] :: r
    else
      match r with
      | [] => [[x]]
      | h :: t => (x :: h) :: t

/-- Model of Rust `str::split_once(c)`, over `List Char`: splits at the first
occurrence of `c`, or `none` when `c` does not occur. -/
def splitOnceChar (c : Char) : List Char → Option (List Char × List Char)
  | [] => none
  | x :: xs =>
    if x = c then some ([], xs)
    else (splitOnceChar c xs).map (fun p => (x :: p.1, p.2))

/-- Model of Rust `str::split_once(c)`. -/
def split_once (c : Char) (s : String) : Option (String × String) :=
  (splitOnceChar c s.data).map (fun p => (⟨p.1⟩, ⟨p.2⟩))

/-- Model of Rust `[&str]::join(sep)` for a one-character separator, over
`List Char` pieces. -/
def joinSep (c : Char) : List (List Char) → List Char
  | [] => []
  | [x] => x
  | x :: xs => x ++ c :: joinSep c xs

/-- Model of Rust `str::ends_with(t)`. -/
def ends_with (s t : String) : Bool := t.data.isSuffixOf s.data

/-- Model of Rust `str::strip_suffix(t)`. -/
def strip_suffix (s t : String) : Option String :=
  if t.data.isSuffixOf s.data then some ⟨s.data.take (s.data.length - t.data.length)⟩
  else none

/-- Model of Rust `str::rsplitn(3, c)`, as the list of the fragments it
yields (rightmost fragment first, the third fragment left unsplit). -/
def rsplitn3 (c : Char) (s : String) : List String :=
  match (splitChar c s.data).reverse with
  | [] => []
  | [a] => [⟨a⟩]
  | [a, b] => [⟨a⟩, ⟨b⟩]
  | a :: b :: rest => [⟨a⟩, ⟨b⟩, ⟨joinSep c rest.reverse⟩]

/-- The labels of a host string, as Rust `host.split('.')` yields them. -/
def hostLabels (h : String) : List String := (splitChar '.' h.data).map String.mk

/- ----------------------------------------------------------------------- -/
/- Core data model (src/core/pages.rs, src/core/asset.rs, src/core/cache.rs) -/
/- ----------------------------------------------------------------------- -/

/-- `PageError` (src/core/pages.rs). -/
inductive PageError where
  | NotFound
  | ProviderError
deriving DecidableEq

/-- `AssetError` (src/core/asset.rs). -/
inductive AssetError where
  | NotFound
  | Corrupted
  | ProviderError
  | CannotInterpret
deriving DecidableEq

/-- `PageLocation` (src/core/pages.rs). -/
structure PageLocation where
  owner : String
  name : String
  branch : String
deriving DecidableEq

/-- `PageAssetLocation` (src/core/pages.rs). -/
structure PageAssetLocation where
  page : PageLocation
  asset : String
deriving DecidableEq

/-- The observable data of a `Page` trait object: `owner`, `name`, `branch`,
`version` (src/core/pages.rs). -/
structure PageMeta where
  owner : String
  name : String
  branch : String
  version : String
deriving DecidableEq

/-- Byte blobs (`Vec<u8>` asset and cache values), abstracted by their UTF-8
reading: the embedded code only ever moves bytes around whole, compares them,
or decodes them as UTF-8. `raw n` stands for a (numbered) byte sequence that
is not valid UTF-8. -/
inductive BytesM where
  | utf8 (s : String)
  | raw (n : Nat)
deriving DecidableEq

/-- Model of `std::str::from_utf8` on a `BytesM`. -/
def BytesM.asUtf8 : BytesM → Option String
  | .utf8 s => some s
  | .raw _ => none

/- ----------------------------------------------------------------------- -/
/- URL analysis (src/util.rs; the missing src/core/util.rs)                -/
/- ----------------------------------------------------------------------- -/

/-- `UrlAnalysis` (src/util.rs). -/
structure UrlAnalysis where
  owner : Option String
  repo : Option String
  branch : Option String
  asset : String
deriving DecidableEq

/-- A parsed `url::Url`, by the two observations the embedded code makes of
it: `host_str()` and `path_segments()` (the `/`-separated path pieces). -/
structure Url where
  host : Option String
  pathSegments : List String
deriving DecidableEq

/-- The path-based form of URL analysis (src/util.rs lines 54-73): skip empty
segments; first segment is the owner; the second, split once on `:`, gives
repo and optional branch; the rest joined by `/` and prefixed with `/` is the
asset (or `"/"` when nothing remains). -/
def path_form (u : Url) : UrlAnalysis :=
  let segments := u.pathSegments.filter (fun s => s != "")
  let rb : Option String × Option String :=
    match segments[1]? with
    | none => (none, none)
    | some seg =>
      match split_once ':' seg with
      | some (rp, br) => (some rp, some br)
      | none => (some seg, none)
  let path := joinSep '/' ((segments.drop 2).map String.data)
  { owner := segments[0]?
    repo := rb.1
    branch := rb.2
    asset := if path.isEmpty then "/" else ⟨'/' :: path⟩ }

/-- The subdomain-based form of URL analysis (src/util.rs lines 26-53) of host
`h` against base host `b`: strip the base suffix and the trailing dot
(falling back to the whole host, as the source does), reverse-split the
remaining labels into up to three parts — owner (rightmost), repo, branch —
and take the asset from the path as in the path-based form. -/
def subdomain_form (h b : String) (u : Url) : Option UrlAnalysis :=
  match strip_suffix h b with
  | none => none
  | some p1 =>
    let pref := (strip_suffix p1 ".").getD h
    let parts := rsplitn3 '.' pref
    let path := joinSep '/' ((u.pathSegments.filter (fun s => s != "")).map String.data)
    some { owner := parts[0]?
           repo := parts[1]?
           branch := parts[2]?
           asset := if path.isEmpty then "/" else ⟨'/' :: path⟩ }

/-- Modelled from the spec: `src/core/mod.rs` declares `mod util`, but
`src/core/util.rs` is absent from the sources; only its caller
`src/core/resolver.rs` and the sibling `src/util.rs` remain. Following §4.1
of the design (path analysis vs subdomain analysis) and the sibling
implementation: with no base host the URL is analyzed in the path-based form;
with a base host, a host equal to the base uses the path-based form, a strict
subdomain of it uses the subdomain form, and an unrelated or absent host
yields `none`. -/
def analyze_url (u : Url) (base : Option String) : Option UrlAnalysis :=
  match base with
  | none => some (path_form u)
  | some b =>
    match u.host with
    | none => none
    | some h =>
      if h == b then some (path_form u)
      else if ends_with h ("." ++ b) then subdomain_form h b u
      else none

/- ----------------------------------------------------------------------- -/
/- URL resolver (src/core/resolver.rs)                                     -/
/- ----------------------------------------------------------------------- -/

/-- `UrlResolution` (src/core/resolver.rs). -/
inductive UrlResolution where
  | Page (loc : PageAssetLocation)
  | BuiltIn
  | External (url : Url)
  | Malformed (reason : String)
deriving DecidableEq

/-- `DefaultUrlResolver` (src/core/resolver.rs), after `new` has reduced the
configured URLs to host strings. -/
structure DefaultUrlResolver where
  home_domain : Option String
  page_domains : Option (List String)
  external_enabled : Bool
  default_repo : String
  default_branch : String
deriving DecidableEq

/-- `is_in_url` (src/core/resolver.rs lines 187-191): strict-subdomain test,
`url` must end with `"." + url_base`. -/
def is_in_url (url_base url : String) : Bool := ends_with url ("." ++ url_base)

/-- Rust `Option::iter().count()`: `1` on `Some` (whatever it holds), else `0`.
The resolver applies this to `page_domains : Option<Vec<String>>`, so a
`Some` with an empty vector still counts as `1`. -/
def optionIterCount : Option α → Nat
  | none => 0
  | some _ => 1

/-- The `for pd in pds` loop of `DefaultUrlResolver::resolve`
(src/core/resolver.rs lines 132-168), including the fall-through after the
loop: on a strict-subdomain match, analyze; an owner gives `Page`, no owner
gives `External` when external is enabled and otherwise falls through (the
source's `drop(UrlResolution::BuiltIn)` is a no-op); after the loop,
`External` when enabled, else `BuiltIn`. -/
def resolveSubdomains (r : DefaultUrlResolver) (u : Url) (h : String) :
    List String → Option UrlResolution
  | [] => if r.external_enabled then some (.External u) else some .BuiltIn
  | pd :: rest =>
    if is_in_url pd h then
      match analyze_url u (some pd) with
      | some a =>
        match a.owner with
        | some owner =>
          some (.Page { page := { owner := owner
                                  name := a.repo.getD r.default_repo
                                  branch := a.branch.getD r.default_branch }
                        asset := a.asset })
        | none =>
          if r.external_enabled then some (.External u)
          else resolveSubdomains r u h rest
      | none => resolveSubdomains r u h rest
    else resolveSubdomains r u h rest

/-- `DefaultUrlResolver::resolve` (src/core/resolver.rs lines 88-180).
`none` models the panic the source reaches at `host.unwrap()` (line 129)
when the non-root branch runs on a URL without a host. -/
def DefaultUrlResolver.resolve (r : DefaultUrlResolver) (u : Url) :
    Option UrlResolution :=
  let host := u.host
  let is_root : Bool :=
    (optionIterCount r.page_domains == 0 && !r.external_enabled)
    || (match host with
        | some h =>
          match r.page_domains with
          | some pd =>
            (match r.home_domain with
             | some hd => hd == h
             | none =>
               if pd.any (fun f => f == h) then false
               else optionIterCount r.page_domains == 0 && !r.external_enabled)
          | none =>
            (match r.home_domain with
             | some hd => hd == h
             | none => !r.external_enabled)
        | none => optionIterCount r.page_domains == 0)
  if is_root then
    match analyze_url u none with
    | some a =>
      match a.owner with
      | some owner =>
        some (.Page { page := { owner := owner
                                name := a.repo.getD r.default_repo
                                branch := a.branch.getD r.default_branch }
                      asset := a.asset })
      | none => some .BuiltIn
    | none => some .BuiltIn
  else
    match host with
    | none => none
    | some h =>
      match r.page_domains with
      | some pds => resolveSubdomains r u h pds
      | none =>
        if r.external_enabled then some (.External u) else some .BuiltIn

/- ----------------------------------------------------------------------- -/
/- Forge-backed asset fetch (src/provider/forgejo/asset_direct.rs)         -/
/- ----------------------------------------------------------------------- -/

/-- The error classes of the consumed forge API (`forgejo_api`), per §6 of the
design: a missing resource (HTTP 404), a server-side failure (5xx), or a
network failure. -/
inductive ForgejoApiError where
  | notFound404
  | serverError (code : Nat)
  | network
deriving DecidableEq

/-- `ForgejoDirectReadStorage::get_asset` (src/provider/forgejo/asset_direct.rs
lines 53-83), with the outcome of the upstream `repo_get_raw_file` call passed
explicitly: a success is wrapped into a `MemoryAsset` (here: the bytes), and
every error is mapped to `AssetError::NotFound`. -/
def forgejo_direct_get_asset (upstream : Except ForgejoApiError BytesM) :
    Except AssetError BytesM :=
  match upstream with
  | .ok v => .ok v
  | .error _ => .error AssetError.NotFound

/- ----------------------------------------------------------------------- -/
/- Page queries and search (src/core/pages.rs)                             -/
/- ----------------------------------------------------------------------- -/

/-- `PageQuery` (src/core/pages.rs lines 79-89). -/
structure PageQuery where
  owner : Option (List String)
  name : Option (List String)
  branch : Option (List String)
deriving DecidableEq

/-- `PageQuery::anything` (src/core/pages.rs lines 95-101). -/
def PageQuery.anything : PageQuery :=
  { owner := none, name := none, branch := none }

/-- `PageQuery::with_owners` (src/core/pages.rs lines 106-109): the source
assigns the owners to the `branch` field. -/
def PageQuery.with_owners (q : PageQuery) (owners : List String) : PageQuery :=
  { q with branch := some owners }

/-- `PageQuery::with_names` (src/core/pages.rs lines 112-115): the source
assigns the names to the `branch` field. -/
def PageQuery.with_names (q : PageQuery) (names : List String) : PageQuery :=
  { q with branch := some names }

/-- `PageQuery::with_branches` (src/core/pages.rs lines 118-121). -/
def PageQuery.with_branches (q : PageQuery) (branches : List String) : PageQuery :=
  { q with branch := some branches }

/-- The filter closure of `PageSource::search_pages` (src/core/pages.rs lines
160-179): an owner constraint is matched against `page.owner()`; a name
constraint against `page.name()`; a branch constraint is matched against
`page.name()` as well (the source reads `page.name()` in the branch check). -/
def search_filter (q : PageQuery) (page : PageMeta) : Bool :=
  match q.owner with
  | some v => v.any (fun f => f == page.owner)
  | none =>
    match q.name with
    | some v => v.any (fun f => f == page.name)
    | none =>
      match q.branch with
      | some v => v.any (fun f => f == page.name)
      | none => true

/-- `PageSource::search_pages` (src/core/pages.rs lines 153-186), with the
outcome of `self.pages()` passed explicitly; any upstream error becomes
`PageError::ProviderError`. -/
def search_pages (pages : Except PageError (List PageMeta)) (q : PageQuery) :
    Except PageError (List PageMeta) :=
  match pages with
  | .ok v => .ok (v.filter (search_filter q))
  | .error _ => .error PageError.ProviderError

/- ----------------------------------------------------------------------- -/
/- Cache layer (src/provider/layers/cache.rs)                              -/
/- ----------------------------------------------------------------------- -/

/-- The external key-value cache, as the layer observes it: whether a
connection can be established, and the stored key/value pairs (keys unique). -/
structure CacheM where
  up : Bool
  store : List (String × BytesM)
deriving DecidableEq

/-- `CacheConnection::get`: first value stored under the key, if any
(a miss surfaces as `CacheError::NotFound` in the source; callers only
distinguish hit from non-hit). -/
def storeGet (st : List (String × BytesM)) (key : String) : Option BytesM :=
  (st.find? (fun p => p.1 == key)).map (fun p => p.2)

/-- `CacheConnection::set`: replace any previous value under the key. -/
def storeSet (st : List (String × BytesM)) (key : String) (v : BytesM) :
    List (String × BytesM) :=
  (key, v) :: st.filter (fun p => p.1 != key)

/-- The glob match used by `CacheConnection::delete`: the layer only ever
passes exact keys or a trailing-`*` pattern. -/
def globMatch (pat key : String) : Bool :=
  match pat.data.reverse with
  | [] => key.data.isEmpty
  | last :: restRev =>
    if last = '*' then restRev.reverse.isPrefixOf key.data
    else pat == key

/-- `CacheConnection::delete` on a glob pattern. -/
def storeDeleteGlob (st : List (String × BytesM)) (pat : String) :
    List (String × BytesM) :=
  st.filter (fun p => !globMatch pat p.1)

/-- The `page:{owner}:{name}:{branch}:version` key. -/
def versionKey (page : PageMeta) : String :=
  "page:" ++ page.owner ++ ":" ++ page.name ++ ":" ++ page.branch ++ ":version"

/-- The `page:{owner}:{name}:{branch}:asset:{path}` key. -/
def assetKey (page : PageMeta) (path : String) : String :=
  "page:" ++ page.owner ++ ":" ++ page.name ++ ":" ++ page.branch ++ ":asset:" ++ path

/-- `CacheLayerSource::page_at` (src/provider/layers/cache.rs lines 226-285),
with the upstream source's `page_at` passed as a function and the cache state
threaded explicitly. A failed `cache.connect()` returns
`PageError::ProviderError` before the upstream is consulted. On upstream
success, the cached version is compared: a cached version that is not UTF-8
returns `PageError::ProviderError`; a differing version triggers a glob
delete of `page:{o}:{n}:{b}:*` and a write of the new version; an absent
version is written. -/
def cache_page_at (upstream : String → String → String → Except PageError PageMeta)
    (cache : CacheM) (owner name branch : String) :
    Except PageError PageMeta × CacheM :=
  if !cache.up then (.error PageError.ProviderError, cache)
  else
    match upstream owner name branch with
    | .error e => (.error e, cache)
    | .ok page =>
      match storeGet cache.store (versionKey page) with
      | some v =>
        match v.asUtf8 with
        | none => (.error PageError.ProviderError, cache)
        | some version =>
          if version != page.version then
            let st1 := storeDeleteGlob cache.store
              ("page:" ++ page.owner ++ ":" ++ page.name ++ ":" ++ page.branch ++ ":*")
            let st2 := storeSet st1 (versionKey page) (.utf8 page.version)
            (.ok page, { cache with store := st2 })
          else (.ok page, cache)
      | none =>
        (.ok page,
         { cache with store := storeSet cache.store (versionKey page) (.utf8 page.version) })

/-- `CacheAsset` (src/provider/layers/cache.rs lines 59-77): a cache hit holds
the cached bytes, a miss loads the upstream asset. -/
inductive CacheAsset where
  | hold (b : BytesM)
  | load (b : BytesM)
deriving DecidableEq

/-- The bytes of a `CacheAsset`. -/
def CacheAsset.bytes : CacheAsset → BytesM
  | .hold b => b
  | .load b => b

/-- `CachePage::get_asset` (src/provider/layers/cache.rs lines 181-218), with
the wrapped page's upstream `get_asset` passed as a function. A failed
`cache.connect()` returns `AssetError::ProviderError` before the upstream is
consulted; a cache hit returns the held bytes; a miss delegates to the
upstream and, on success, writes the bytes back (the write result is
discarded). -/
def cache_get_asset (upstream : String → Except AssetError BytesM)
    (cache : CacheM) (page : PageMeta) (path : String) :
    Except AssetError CacheAsset × CacheM :=
  if !cache.up then (.error AssetError.ProviderError, cache)
  else
    match storeGet cache.store (assetKey page path) with
    | some v => (.ok (.hold v), cache)
    | none =>
      match upstream path with
      | .ok v => (.ok (.load v), { cache with store := storeSet cache.store (assetKey page path) v })
      | .error e => (.error e, cache)

/-- The `for domain in domains` loop of `CacheLayerSource::find_by_domains`
(src/provider/layers/cache.rs lines 300-316): for each domain, read
`domain:owner:{d}` and `domain:name:{d}` as strings; when both reads succeed,
call `self.page_at(o, r, default_branch)`; its success returns early, and any
failure falls through to the next domain. -/
def findDomainLoop (upstream : String → String → String → Except PageError PageMeta)
    (default_branch : String) (cache : CacheM) :
    List String → Option (PageMeta × CacheM)
  | [] => none
  | d :: rest =>
    match (storeGet cache.store ("domain:owner:" ++ d)).bind BytesM.asUtf8 with
    | none => findDomainLoop upstream default_branch cache rest
    | some o =>
      match (storeGet cache.store ("domain:name:" ++ d)).bind BytesM.asUtf8 with
      | none => findDomainLoop upstream default_branch cache rest
      | some r =>
        match cache_page_at upstream cache o r default_branch with
        | (.ok page, cache1) => some (page, cache1)
        | (.error _, cache1) => findDomainLoop upstream default_branch cache1 rest

/-- `CacheLayerSource::find_by_domains` (src/provider/layers/cache.rs lines
291-337). The returned `Bool` records whether `upstream.find_by_domains` was
invoked (the upstream's default implementation walks `pages()`,
src/core/pages.rs lines 206-258). A failed `cache.connect()` returns
`PageError::ProviderError`. Otherwise the cached-domain loop runs; when it
finds nothing, the upstream `find_by_domains` result is used and, on success,
the page's owner and name are written under `domain:{d}:owner` and
`domain:{d}:name` for each requested domain. -/
def cache_find_by_domains
    (upstreamPageAt : String → String → String → Except PageError PageMeta)
    (upstreamFind : Except PageError PageMeta)
    (default_branch : String) (cache : CacheM) (domains : List String) :
    (Except PageError PageMeta × Bool) × CacheM :=
  if !cache.up then ((.error PageError.ProviderError, false), cache)
  else
    match findDomainLoop upstreamPageAt default_branch cache domains with
    | some (page, cache1) => ((.ok page, false), cache1)
    | none =>
      match upstreamFind with
      | .ok page =>
        let st := domains.foldl (fun st d =>
          storeSet (storeSet st ("domain:" ++ d ++ ":owner") (.utf8 page.owner))
            ("domain:" ++ d ++ ":name") (.utf8 page.name)) cache.store
        ((.ok page, true), { cache with store := st })
      | .error e => ((.error e, true), cache)

/- ----------------------------------------------------------------------- -/
/- Upstream scanner (src/provider/forgejo/scanner.rs)                      -/
/- ----------------------------------------------------------------------- -/

/-- The fields of `forgejo_api::structs::RepoSearchQuery` the model tracks:
`ForgejoScanner::update` leaves every filter unset (`None`) and only sets
`limit`. -/
structure RepoSearchQuery where
  archived : Option Bool
  limit : Option Nat
deriving DecidableEq

/-- A repository as returned by the upstream search: `owner.login`, `name`,
and whether it is archived. -/
structure SearchRepo where
  owner : String
  name : String
  archived : Bool
deriving DecidableEq

/-- `repo_get_branch` response: `{commit: {id}}`, each level optional
(§6 of the design). -/
structure BranchResp where
  commit : Option (Option String)
deriving DecidableEq

/-- Model of the consumed forge API `repo_search` (§6 of the design): the
upstream filters by archived status only when the `archived` parameter is
set, and returns at most `limit` items. -/
def repo_search (repos : List SearchRepo) (q : RepoSearchQuery) : List SearchRepo :=
  let filtered :=
    match q.archived with
    | some b => repos.filter (fun r => r.archived == b)
    | none => repos
  match q.limit with
  | some n => filtered.take n
  | none => filtered

/-- The `RepoSearchQuery` built by `ForgejoScanner::update`
(src/provider/forgejo/scanner.rs lines 89-107): every field `None`, except
`limit: Some(99999)`. -/
def scannerSearchQuery : RepoSearchQuery :=
  { archived := none, limit := some 99999 }

/-- `HashMap::insert` on the scanner's snapshot, modelled as replace-append
on an association list. -/
def snapInsert (m : List ((String × String × String) × String))
    (k : String × String × String) (v : String) :
    List ((String × String × String) × String) :=
  m.filter (fun p => p.1 != k) ++ [(k, v)]

/-- Lookup in the scanner's snapshot. -/
def snapLookup (m : List ((String × String × String) × String))
    (k : String × String × String) : Option String :=
  (m.find? (fun p => p.1 == k)).map (fun p => p.2)

/-- The commit id `ForgejoScanner::update` extracts for one branch of one
repo: the branch must exist and have a commit with an id. -/
def branchVersion (getBranch : String → String → String → Option BranchResp)
    (owner name branch : String) : Option String :=
  match getBranch owner name branch with
  | none => none
  | some br =>
    match br.commit with
    | none => none
    | some id? => id?

/-- The inner `for branch_name in target_branches` loop of
`ForgejoScanner::update` (src/provider/forgejo/scanner.rs lines 132-174):
skip a branch on fetch error, missing commit, or missing commit id; otherwise
insert `(owner, name, branch) → commit id`. -/
def scanBranches (getBranch : String → String → String → Option BranchResp)
    (repo : SearchRepo) (targets : List String)
    (acc : List ((String × String × String) × String)) :
    List ((String × String × String) × String) :=
  targets.foldl (fun acc branchName =>
    match branchVersion getBranch repo.owner repo.name branchName with
    | none => acc
    | some version => snapInsert acc (repo.owner, repo.name, branchName) version) acc

/-- The successful path of `ForgejoScanner::update`
(src/provider/forgejo/scanner.rs lines 86-183): search repositories with
`scannerSearchQuery` (no archived filter, limit 99999), clear the snapshot,
and fill it from the branch fetches. The upstream state is passed as the
repository list and the `repo_get_branch` function (`none` = error). -/
def scanner_update (repos : List SearchRepo)
    (getBranch : String → String → String → Option BranchResp)
    (targets : List String) :
    List ((String × String × String) × String) :=
  (repo_search repos scannerSearchQuery).foldl
    (fun acc repo => scanBranches getBranch repo targets acc) []

/-- A `tokio::time::interval_at(next, period)` timer: `tick` completes at the
scheduled instant (or immediately when already past it) and schedules the
next tick one period later. -/
structure IntervalTimer where
  next : Nat
  period : Nat
deriving DecidableEq

/-- One `interval.tick().await`: the completion instant and the advanced
timer. -/
def IntervalTimer.tick (t : IntervalTimer) (now : Nat) : Nat × IntervalTimer :=
  let fire := max t.next now
  (fire, { next := fire + t.period, period := t.period })

/-- The loop of `ForgejoScanner::auto_scan` (src/provider/forgejo/scanner.rs
lines 63-77), with updates taken as instantaneous: each iteration runs
`update` at the current instant and then awaits the next tick. `fuel` bounds
the number of iterations observed (the real loop runs until the scanner is
dropped); the result lists the instants at which the scan cycles start. -/
def autoScanLoop (timer : IntervalTimer) (now : Nat) : Nat → List Nat
  | 0 => []
  | fuel + 1 =>
    now ::
      (let ft := timer.tick now
       autoScanLoop ft.2 ft.1 fuel)

/-- `ForgejoScanner::auto_scan` (src/provider/forgejo/scanner.rs lines 52-78)
observed for `fuel` cycles from construction at instant `0`: the timer is
`interval_at(now + poll_interval, poll_interval)`, and the loop body runs
`update` before its first `tick`. -/
def auto_scan_starts (poll_interval fuel : Nat) : List Nat :=
  autoScanLoop { next := poll_interval, period := poll_interval } 0 fuel

/- ----------------------------------------------------------------------- -/
/- Page dispatch (src/frontend/routes/pages.rs)                            -/
/- ----------------------------------------------------------------------- -/

/-- The body of an HTTP response built by the page routes: the rendered error
template, the brief plain-text asset error, or asset bytes. -/
inductive RespBody where
  | errorTemplate (code : Nat)
  | plainAssetError (e : AssetError)
  | assetBody (b : BytesM)
deriving DecidableEq

/-- Rust `Path::join` with a relative right-hand side, as used on the asset
paths here: append, inserting a `/` separator unless one is already there. -/
def path_join (a b : String) : String :=
  if ends_with a "/" then a ++ b else a ++ "/" ++ b

/-- `get_page_response_raw` (src/frontend/routes/pages.rs lines 66-149), with
the provider's `page_at` outcome and the page's `get_asset` passed
explicitly. Returns the response (status and body) paired with the list of
asset paths fetched from the page. A page fetch failure renders the error
template with 404; an asset fetch failure yields a plain-text 404 body; a hit
yields the asset bytes with the given `ok_code`. -/
def get_page_response_raw (pageAt : Except PageError Unit)
    (getAsset : String → Except AssetError BytesM)
    (file : String) (ok_code : Nat) : (Nat × RespBody) × List String :=
  match pageAt with
  | .error _ => ((404, .errorTemplate 404), [])
  | .ok _ =>
    match getAsset file with
    | .error e => ((404, .plainAssetError e), [file])
    | .ok v => ((ok_code, .assetBody v), [file])

/-- `get_page_response` (src/frontend/routes/pages.rs lines 22-61), with the
server filesystem's `Path::is_dir` passed as `fs_is_dir`. The primary fetch
uses `file.join("index.html")` when `file.is_dir()` holds on the server
filesystem, else `file` itself; a 404 retries `file.join("./index.html")`
with status 200, and a second 404 falls back to the page's `./404.html`
served with status 404. The fetched asset paths are accumulated in order. -/
def get_page_response (fs_is_dir : String → Bool)
    (pageAt : Except PageError Unit)
    (getAsset : String → Except AssetError BytesM)
    (file : String) : (Nat × RespBody) × List String :=
  let primary :=
    if fs_is_dir file then
      get_page_response_raw pageAt getAsset (path_join file "index.html") 200
    else
      get_page_response_raw pageAt getAsset file 200
  if primary.1.1 == 404 then
    let secondary := get_page_response_raw pageAt getAsset (path_join file "./index.html") 200
    if secondary.1.1 == 404 then
      let fallback := get_page_response_raw pageAt getAsset "./404.html" 404
      (fallback.1, primary.2 ++ secondary.2 ++ fallback.2)
    else (secondary.1, primary.2 ++ secondary.2)
  else (primary.1, primary.2)

/- ----------------------------------------------------------------------- -/
/- Concrete instances used for checks                                      -/
/- ----------------------------------------------------------------------- -/

/-- The resolver configuration of the repository's `tests::root_builtin`
(src/core/resolver.rs lines 210-262): home `home.domain`, one page host
`pages.domain`, defaults `pages`/`pages`, external resolution as given. -/
def testResolver (ext : Bool) : DefaultUrlResolver :=
  { home_domain := some "home.domain"
    page_domains := some ["pages.domain"]
    external_enabled := ext
    default_repo := "pages"
    default_branch := "pages" }

/-- The resolver configuration of `tests::default_to_root`
(src/core/resolver.rs lines 293-321): nothing configured, defaults
`pages`/`pages`. -/
def bareResolver : DefaultUrlResolver :=
  { home_domain := none
    page_domains := none
    external_enabled := false
    default_repo := "pages"
    default_branch := "pages" }

/-- A page (`nya/site` on branch `pages`, version `v1`) used to exercise the
cache layer. -/
def c4page : PageMeta :=
  { owner := "nya", name := "site", branch := "pages", version := "v1" }

/-- An upstream `page_at` that knows exactly the page `c4page`. -/
def c4upstreamPageAt (owner name branch : String) : Except PageError PageMeta :=
  if owner == "nya" && name == "site" && branch == "pages" then .ok c4page
  else .error PageError.NotFound

/-- An upstream `find_by_domains` (the pages-walking default implementation of
src/core/pages.rs) that resolves the requested domain to `c4page`. -/
def c4upstreamFind : Except PageError PageMeta := .ok c4page

/-- First `find_by_domains(["custom.example"])` call on an empty, reachable
cache. -/
def c4call1 : (Except PageError PageMeta × Bool) × CacheM :=
  cache_find_by_domains c4upstreamPageAt c4upstreamFind "pages"
    { up := true, store := [] } ["custom.example"]

/-- Second `find_by_domains(["custom.example"])` call, on the cache state the
first call produced. -/
def c4call2 : (Except PageError PageMeta × Bool) × CacheM :=
  cache_find_by_domains c4upstreamPageAt c4upstreamFind "pages"
    c4call1.2 ["custom.example"]

/-- Whether the components around the first `:` of a path segment (the repo
and branch parts `split_once(':')` yields) are nonempty; vacuously true for
segments without a `:`. -/
def colon_components_ok (s : String) : Bool :=
  match split_once ':' s with
  | some p => !(p.1 == "") && !(p.2 == "")
  | none => true

/- ----------------------------------------------------------------------- -/
/- Theorems                                                                -/
/- ----------------------------------------------------------------------- -/

/-- C1: the claim says resolution is total and never panics, URLs without a
host included. The code is not: with page domains configured (here the
configuration of the repository's own `root_builtin` test) and a URL whose
host is absent, `is_root` computes to false and `resolve` reaches
`host.unwrap()` (src/core/resolver.rs line 129), which panics — modelled as
the `none` result. -/
theorem c1_resolve_panics_without_host :
    DefaultUrlResolver.resolve (testResolver false) { host := none, pathSegments := [] }
      = none := by
  rfl

/-- C2 counterexample: with external resolution enabled, a URL whose host
exactly equals the configured page host `pages.domain` resolves to
`External`, not `BuiltIn` — exactly as the repository's own `root_builtin`
test asserts (src/core/resolver.rs lines 258-261). This refutes the claim's
"even when external resolution is enabled". -/
theorem c2_counterexample :
    DefaultUrlResolver.resolve (testResolver true)
        { host := some "pages.domain", pathSegments := [] }
      = some (.External { host := some "pages.domain", pathSegments := [] })
    ∧ DefaultUrlResolver.resolve (testResolver true)
        { host := some "pages.domain", pathSegments := [] }
      ≠ some .BuiltIn := by
  exact ⟨rfl, by decide⟩

/-- C3 counterexample: an upstream 5xx failure of the raw-file fetch is
mapped to `AssetError::NotFound`, not `AssetError::ProviderError` as the
claim requires for non-404 failures. -/
theorem c3_counterexample :
    forgejo_direct_get_asset (.error (.serverError 500)) = .error AssetError.NotFound
    ∧ AssetError.NotFound ≠ AssetError.ProviderError := by
  exact ⟨rfl, by decide⟩

/-- C3 as amended: `ForgejoDirectReadStorage::get_asset` forwards a
successful raw-file fetch and maps every upstream failure — the 404, the
5xx and the network case alike — to `AssetError::NotFound`;
`ProviderError` is never produced on this path. -/
theorem c3_all_upstream_errors_become_not_found :
    (∀ v, forgejo_direct_get_asset (.ok v) = .ok v)
    ∧ (∀ e, forgejo_direct_get_asset (.error e) = .error AssetError.NotFound) :=
  ⟨fun _ => rfl, fun _ => rfl⟩

/-- C4: the domain cache-hit path can never fire. The first
`find_by_domains(["custom.example"])` succeeds through the upstream
(`Bool` component `true`: `upstream.find_by_domains`, the pages-walking
default, was invoked) and writes the keys `domain:custom.example:owner` and
`domain:custom.example:name`; but the lookup loop reads the transposed keys
`domain:owner:custom.example` / `domain:name:custom.example`
(src/provider/layers/cache.rs lines 301-302 vs 323-324), which remain
absent, so the second, supposedly warm call invokes the upstream walk again
instead of using the cached keys and `page_at`. -/
theorem c4_warm_domain_cache_still_walks_upstream :
    c4call1.1 = (.ok c4page, true)
    ∧ storeGet c4call1.2.store "domain:custom.example:owner" = some (.utf8 "nya")
    ∧ storeGet c4call1.2.store "domain:custom.example:name" = some (.utf8 "site")
    ∧ storeGet c4call1.2.store "domain:owner:custom.example" = none
    ∧ c4call2.1 = (.ok c4page, true) :=
  ⟨rfl, rfl, rfl, rfl, rfl⟩

/-- C5 counterexample: a failed cache connection is fatal, not degraded.
With an unreachable cache and an upstream `page_at` that succeeds on
`(nya, site, pages)`, the layer's `page_at` returns
`PageError::ProviderError` (src/provider/layers/cache.rs lines 232-238)
instead of the upstream's page. -/
theorem c5_counterexample :
    (cache_page_at c4upstreamPageAt { up := false, store := [] } "nya" "site" "pages").1
      = .error PageError.ProviderError
    ∧ c4upstreamPageAt "nya" "site" "pages" = .ok c4page :=
  ⟨rfl, rfl⟩

/-- C5 as amended: after a successful cache connection, a cache read miss in
`get_asset` degrades to the upstream result (and the write-back result is
discarded); but a failed cache connection makes `page_at`, `get_asset` and
`find_by_domains` return `ProviderError` without consulting the upstream,
and a cached version that is not valid UTF-8 makes `page_at` return
`ProviderError` even though the upstream succeeded. -/
theorem c5_cache_connect_failure_is_fatal :
    (∀ (st : List (String × BytesM)) (page : PageMeta) (path : String)
       (up : String → Except AssetError BytesM),
       storeGet st (assetKey page path) = none →
       (cache_get_asset up { up := true, store := st } page path).1
         = (up path).map CacheAsset.load)
    ∧ (∀ (st : List (String × BytesM)) (page : PageMeta) (path : String)
         (up : String → Except AssetError BytesM),
         (cache_get_asset up { up := false, store := st } page path).1
           = .error AssetError.ProviderError)
    ∧ (∀ (st : List (String × BytesM)) (o n b : String)
         (up : String → String → String → Except PageError PageMeta),
         (cache_page_at up { up := false, store := st } o n b).1
           = .error PageError.ProviderError)
    ∧ (∀ (st : List (String × BytesM)) (ds : List String) (db : String)
         (upA : String → String → String → Except PageError PageMeta)
         (upF : Except PageError PageMeta),
         ((cache_find_by_domains upA upF db { up := false, store := st } ds).1).1
           = .error PageError.ProviderError)
    ∧ (∀ (st : List (String × BytesM)) (o n b : String)
         (up : String → String → String → Except PageError PageMeta)
         (page : PageMeta) (k : Nat),
         up o n b = .ok page →
         storeGet st (versionKey page) = some (.raw k) →
         (cache_page_at up { up := true, store := st } o n b).1
           = .error PageError.ProviderError) := by
  refine ⟨?_, ?_, ?_, ?_, ?_⟩
  · intro st page path up h
    simp only [cache_get_asset, Bool.not_true, Bool.false_eq_true, if_false, h]
    cases hu : up path <;> simp [Except.map]
  · intro st page path up
    rfl
  · intro st o n b up
    rfl
  · intro st ds db upA upF
    rfl
  · intro st o n b up page k hup hst
    simp [cache_page_at, hup, hst, BytesM.asUtf8]

/-- C5 witness: the amended behaviors at concrete inputs — a reachable empty
cache degrades a `get_asset` miss to the upstream bytes, and a reachable
cache holding a non-UTF-8 version makes `page_at` fail although the upstream
succeeded. -/
theorem c5_cache_connect_failure_is_fatal_witness :
    (cache_get_asset (fun _ => .ok (.utf8 "hello")) { up := true, store := [] }
        c4page "/x").1 = .ok (.load (.utf8 "hello"))
    ∧ (cache_page_at (fun _ _ _ => .ok c4page)
        { up := true, store := [(versionKey c4page, .raw 0)] } "nya" "site" "pages").1
      = .error PageError.ProviderError := by
  constructor
  · exact c5_cache_connect_failure_is_fatal.1 [] c4page "/x" (fun _ => .ok (.utf8 "hello")) rfl
  · exact c5_cache_connect_failure_is_fatal.2.2.2.2 [(versionKey c4page, .raw 0)]
      "nya" "site" "pages" (fun _ _ _ => .ok c4page) c4page 0 rfl rfl

/-- C6 counterexample: with poll interval 240, the only scan-cycle start
observed in the first iteration is at instant 0 — the first cycle begins at
construction, not one interval later. -/
theorem c6_counterexample :
    auto_scan_starts 240 1 = [0] ∧ (auto_scan_starts 240 1).head? ≠ some 240 :=
  ⟨rfl, by decide⟩

/-- C6 as amended: the first scan cycle begins immediately at construction
and cycle `n` begins `n` intervals after construction: the loop body of
`auto_scan` runs `update` before its first `interval.tick().await`, and the
timer `interval_at(now + t, t)` then spaces the following cycles `t` apart. -/
theorem c6_first_cycle_immediate (t fuel n : Nat) (h : n < fuel) :
    (auto_scan_starts t fuel)[n]? = some (n * t) := by
  have key : ∀ (fuel b n : Nat), n < fuel →
      (autoScanLoop { next := b + t, period := t } b fuel)[n]? = some (b + n * t) := by
    intro fuel
    induction fuel with
    | zero => intro b n h; omega
    | succ m ih =>
      intro b n h
      simp only [autoScanLoop, IntervalTimer.tick]
      have hmax : max (b + t) b = b + t := Nat.max_eq_left (Nat.le_add_right b t)
      cases n with
      | zero => simp
      | succ k =>
        simp only [List.getElem?_cons_succ, hmax]
        rw [ih (b + t) k (by omega)]
        congr 1
        ring
  have h0 := key fuel 0 n h
  simpa [auto_scan_starts] using h0

/-- C6 witness: with poll interval 240 the second observed cycle starts at
instant 240. -/
theorem c6_first_cycle_immediate_witness :
    (auto_scan_starts 240 3)[1]? = some 240 := by
  simpa using c6_first_cycle_immediate 240 3 1 (by decide)

/-- C8: the dispatcher consults the server filesystem. For the directory
request `/docs/` (no such directory exists on the gateway's own filesystem,
so `file.is_dir()` is false) on an existing page with no assets, the traced
fetches are `/docs/` itself — `index.html` is NOT appended before the first
fetch — then `/docs/./index.html`, then `./404.html` (not `/404.html`), and
the final response is the plain-text 404. -/
theorem c8_dispatch_consults_server_filesystem :
    get_page_response (fun _ => false) (.ok ())
        (fun _ => .error AssetError.NotFound) "/docs/"
      = ((404, .plainAssetError AssetError.NotFound),
         ["/docs/", "/docs/./index.html", "./404.html"]) :=
  rfl

/-- C10: `with_owners` and `with_names` both store their argument in the
query's `branch` field, leaving `owner` and `name` unset; `search_pages`
evaluates the branch constraint against each page's `name`; consequently
searching `anything().with_owners(xs)` keeps exactly the pages whose name is
a member of `xs`, regardless of owner. -/
theorem c10_with_owners_selects_by_name (xs : List String) (ps : List PageMeta)
    (p : PageMeta) :
    PageQuery.anything.with_owners xs
      = { owner := none, name := none, branch := some xs }
    ∧ PageQuery.anything.with_names xs
      = { owner := none, name := none, branch := some xs }
    ∧ search_pages (.ok ps) (PageQuery.anything.with_owners xs)
      = .ok (ps.filter (fun q => xs.any (fun f => f == q.name)))
    ∧ (p ∈ ps.filter (fun q => xs.any (fun f => f == q.name)) ↔ p ∈ ps ∧ p.name ∈ xs) := by
  refine ⟨rfl, rfl, rfl, ?_⟩
  rw [List.mem_filter]
  constructor
  · rintro ⟨hp, hany⟩
    refine ⟨hp, ?_⟩
    rcases List.any_eq_true.1 hany with ⟨f, hf, hbeq⟩
    exact beq_iff_eq.1 hbeq ▸ hf
  · rintro ⟨hp, hname⟩
    refine ⟨hp, ?_⟩
    exact List.any_eq_true.2 ⟨p.name, hname, beq_self_eq_true p.name⟩

/-- When no configured page host has the request host as a strict subdomain,
the resolver's page-domain loop falls through: `External` when external
resolution is enabled, else `BuiltIn`. -/
theorem resolveSubdomains_no_match (r : DefaultUrlResolver) (u : Url) (h : String) :
    ∀ pds : List String, (∀ pd ∈ pds, is_in_url pd h = false) →
    resolveSubdomains r u h pds
      = if r.external_enabled then some (.External u) else some .BuiltIn := by
  intro pds
  induction pds with
  | nil => intro _; rfl
  | cons pd rest ih =>
    intro hall
    have h1 : is_in_url pd h = false := hall pd (List.mem_cons_self pd rest)
    simp only [resolveSubdomains, h1, Bool.false_eq_true, if_false]
    exact ih (fun q hq => hall q (List.mem_cons_of_mem pd hq))

/-- C2 as amended: with external resolution DISABLED, a URL whose host
exactly equals a configured page host resolves to `BuiltIn`, provided the
host is not also a strict subdomain of some configured page host and, should
the home domain coincide with it, the URL path has no nonempty segment.
(With external resolution enabled the source returns `External` instead, as
its own `root_builtin` test asserts.) -/
theorem c2_exact_page_host_builtin
    (r : DefaultUrlResolver) (u : Url) (h : String) (pds : List String)
    (hpd : r.page_domains = some pds) (hmem : h ∈ pds)
    (hhost : u.host = some h) (hext : r.external_enabled = false)
    (hnosub : ∀ pd ∈ pds, is_in_url pd h = false)
    (hhome : r.home_domain = some h → u.pathSegments.filter (fun s => s != "") = []) :
    r.resolve u = some .BuiltIn := by
  have hcount : (optionIterCount r.page_domains == 0) = false := by
    rw [hpd]; rfl
  rcases hh : r.home_domain with _ | hd
  · -- no home domain: `is_root` is false, and the loop falls through to BuiltIn
    have hany : pds.any (fun f => f == h) = true :=
      List.any_eq_true.2 ⟨h, hmem, beq_self_eq_true h⟩
    simp only [DefaultUrlResolver.resolve, hhost, hpd, hh, hext, hcount, hany,
      Bool.false_and, Bool.false_or, if_true, if_false, Bool.not_false]
    rw [resolveSubdomains_no_match r u h pds hnosub, hext]
    rfl
  · by_cases hdh : hd = h
    · -- home domain equals the host: the root path analysis runs on an empty
      -- segment list and yields no owner
      have hempty : u.pathSegments.filter (fun s => s != "") = [] :=
        hhome (by rw [hh, hdh])
      have howner : (path_form u).owner = none := by
        simp only [path_form, hempty]
        rfl
      have hbeq : (hd == h) = true := beq_iff_eq.2 hdh
      simp only [DefaultUrlResolver.resolve, hhost, hpd, hh, hext, hcount, hbeq,
        Bool.false_and, Bool.false_or, if_true, Bool.not_false]
      simp only [Bool.or_true, if_true, analyze_url, howner]
    · -- home domain differs: `is_root` is false, and the loop falls through
      have hbeq : (hd == h) = false := by
        exact beq_eq_false_iff_ne.2 hdh
      simp only [DefaultUrlResolver.resolve, hhost, hpd, hh, hext, hcount, hbeq,
        Bool.false_and, Bool.false_or, if_false, Bool.not_false]
      rw [resolveSubdomains_no_match r u h pds hnosub, hext]
      rfl

/-- C2 witness: the `root_builtin` configuration with external resolution
disabled maps `http://pages.domain` to `BuiltIn`. -/
theorem c2_exact_page_host_builtin_witness :
    DefaultUrlResolver.resolve (testResolver false)
        { host := some "pages.domain", pathSegments := [] }
      = some .BuiltIn := by
  exact c2_exact_page_host_builtin (testResolver false)
    { host := some "pages.domain", pathSegments := [] }
    "pages.domain" ["pages.domain"] rfl (by decide) rfl rfl
    (by decide) (fun _ => rfl)

/-- C9 counterexample: with nothing configured (the `default_to_root`
configuration, nonempty defaults `pages`/`pages`), the URL path `/o/:b`
resolves to a `Page` whose name is the EMPTY string: `split_once(':')` on the
segment `:b` yields an empty repo component, which is `Some` and therefore
shadows the default. -/
theorem c9_counterexample :
    bareResolver.resolve { host := some "h", pathSegments := ["o", ":b"] }
      = some (.Page { page := { owner := "o", name := "", branch := "b" }
                      asset := "/" })
    ∧ bareResolver.default_repo ≠ "" ∧ bareResolver.default_branch ≠ "" :=
  ⟨rfl, by decide, by decide⟩

/-- A string made from a nonempty character list is not the empty string. -/
theorem mk_ne_empty {l : List Char} (h : l ≠ []) : (⟨l⟩ : String) ≠ "" :=
  fun hc => h (congrArg String.data hc)

/-- `splitChar` never yields the empty list of fragments. -/
theorem splitChar_ne_nil (c : Char) (l : List Char) : splitChar c l ≠ [] := by
  cases l with
  | nil => exact fun h => List.noConfusion h
  | cons x xs =>
    simp only [splitChar]
    split
    · exact fun h => List.noConfusion h
    · split <;> exact fun h => List.noConfusion h

/-- Splitting around an explicit separator occurrence splits both sides. -/
theorem splitChar_append (c : Char) (xs ys : List Char) :
    splitChar c (xs ++ c :: ys) = splitChar c xs ++ splitChar c ys := by
  induction xs with
  | nil => simp [splitChar]
  | cons x xs ih =>
    have hl : splitChar c (x :: (xs ++ c :: ys))
        = if x = c then [] :: splitChar c (xs ++ c :: ys)
          else
            match splitChar c (xs ++ c :: ys) with
            | [] => [[x]]
            | h :: t => (x :: h) :: t := rfl
    have hr : splitChar c (x :: xs)
        = if x = c then [] :: splitChar c xs
          else
            match splitChar c xs with
            | [] => [[x]]
            | h :: t => (x :: h) :: t := rfl
    rw [List.cons_append, hl, hr, ih]
    by_cases hx : x = c
    · rw [if_pos hx, if_pos hx]
      rfl
    · rw [if_neg hx, if_neg hx]
      rcases hsp : splitChar c xs with _ | ⟨hh, tt⟩
      · exact absurd hsp (splitChar_ne_nil c xs)
      · rfl

/-- Joining a nonempty list of nonempty fragments is nonempty. -/
theorem joinSep_ne_nil (c : Char) :
    ∀ l : List (List Char), (∀ q ∈ l, q ≠ []) → l ≠ [] → joinSep c l ≠ [] := by
  intro l
  induction l with
  | nil => intro _ h; exact absurd rfl h
  | cons x xs ih =>
    intro hall _
    cases xs with
    | nil => simpa [joinSep] using hall x (by simp)
    | cons y ys =>
      simp only [joinSep]
      intro hcon
      exact List.noConfusion (List.append_eq_nil.mp hcon).2

/-- The second and third fragments of `rsplitn(3, c)` are nonempty whenever
every fragment of the full split is. -/
theorem rsplitn3_tail_ne (c : Char) (p : List Char)
    (hall : ∀ q ∈ splitChar c p, q ≠ []) :
    (∀ s, (rsplitn3 c ⟨p⟩)[1]? = some s → s ≠ "")
    ∧ (∀ s, (rsplitn3 c ⟨p⟩)[2]? = some s → s ≠ "") := by
  have heq : rsplitn3 c ⟨p⟩
      = (match (splitChar c p).reverse with
        | [] => []
        | [a] => [(⟨a⟩ : String)]
        | [a, b] => [⟨a⟩, ⟨b⟩]
        | a :: b :: rest => [⟨a⟩, ⟨b⟩, ⟨joinSep c rest.reverse⟩]) := rfl
  have hrevmem : ∀ q, q ∈ (splitChar c p).reverse → q ≠ [] := by
    intro q hq
    exact hall q (List.mem_reverse.mp hq)
  rcases hrev : (splitChar c p).reverse with _ | ⟨x, _ | ⟨y, _ | ⟨z, rest⟩⟩⟩
  · rw [hrev] at heq
    rw [heq]
    exact ⟨fun s hs => by simp at hs, fun s hs => by simp at hs⟩
  · rw [hrev] at heq
    rw [heq]
    exact ⟨fun s hs => by simp at hs, fun s hs => by simp at hs⟩
  · rw [hrev] at heq
    rw [heq]
    constructor
    · intro s hs
      have hy : y ∈ (splitChar c p).reverse := by rw [hrev]; simp
      have := hrevmem y hy
      simp only [List.getElem?_cons_succ, List.getElem?_cons_zero] at hs
      rw [← Option.some.inj hs]
      exact mk_ne_empty this
    · intro s hs
      simp at hs
  · rw [hrev] at heq
    rw [heq]
    constructor
    · intro s hs
      have hy : y ∈ (splitChar c p).reverse := by rw [hrev]; simp
      simp only [List.getElem?_cons_succ, List.getElem?_cons_zero] at hs
      rw [← Option.some.inj hs]
      exact mk_ne_empty (hrevmem y hy)
    · intro s hs
      simp only [List.getElem?_cons_succ, List.getElem?_cons_zero] at hs
      rw [← Option.some.inj hs]
      apply mk_ne_empty
      apply joinSep_ne_nil
      · intro q hq
        apply hrevmem q
        rw [hrev]
        rcases List.mem_reverse.mp hq with h1
        simp [h1]
      · intro hcon
        have : z ∈ (z :: rest).reverse := by simp
        rw [hcon] at this
        simp at this

/-- The repo and branch the path-based analysis produces, after defaults, are
nonempty when the defaults are and every path segment has nonempty
components around its first `:`. -/
theorem path_form_defaults (u : Url) (dr db : String) (hdr : dr ≠ "") (hdb : db ≠ "")
    (hseg : ∀ s ∈ u.pathSegments, colon_components_ok s = true) :
    (path_form u).repo.getD dr ≠ "" ∧ (path_form u).branch.getD db ≠ "" := by
  rcases h1 : (u.pathSegments.filter (fun s => s != ""))[1]? with _ | seg
  · simp only [path_form, h1, Option.getD_none]
    exact ⟨hdr, hdb⟩
  · have hmem : seg ∈ u.pathSegments.filter (fun s => s != "") := List.getElem?_mem h1
    have hmem2 : seg ∈ u.pathSegments := (List.mem_filter.1 hmem).1
    have hne : seg ≠ "" := by
      have := (List.mem_filter.1 hmem).2
      simpa using this
    have hok := hseg seg hmem2
    rcases h2 : split_once ':' seg with _ | ⟨a, b⟩
    · simp only [path_form, h1, h2, Option.getD_some, Option.getD_none]
      exact ⟨hne, hdb⟩
    · rw [colon_components_ok, h2] at hok
      simp only [Bool.and_eq_true, Bool.not_eq_true', beq_eq_false_iff_ne] at hok
      simp only [path_form, h1, h2, Option.getD_some]
      exact hok

/-- The repo and branch the subdomain analysis produces, after defaults, are
nonempty when the defaults are and none of the host's labels is empty. -/
theorem subdomain_form_defaults (h b : String) (u : Url) (a : UrlAnalysis)
    (dr db : String) (hdr : dr ≠ "") (hdb : db ≠ "")
    (hend : ends_with h ("." ++ b) = true)
    (hlab : ∀ l ∈ hostLabels h, l ≠ "")
    (hana : subdomain_form h b u = some a) :
    a.repo.getD dr ≠ "" ∧ a.branch.getD db ≠ "" := by
  have hsuf : ('.' :: b.data) <:+ h.data := by
    have h1 : ("." ++ b).data.isSuffixOf h.data = true := hend
    have h2 := List.isSuffixOf_iff_suffix.mp h1
    simpa using h2
  obtain ⟨p, hp⟩ := hsuf
  have hdata : h.data = (p ++ ['.']) ++ b.data := by
    rw [← hp]; simp
  have hstrip1 : strip_suffix h b = some ⟨p ++ ['.']⟩ := by
    have hsuf2 : b.data <:+ h.data := ⟨p ++ ['.'], hdata.symm⟩
    rw [strip_suffix, if_pos (List.isSuffixOf_iff_suffix.mpr hsuf2)]
    have hlen : h.data.length - b.data.length = (p ++ ['.']).length := by
      rw [hdata]
      simp only [List.length_append, List.length_cons, List.length_nil]
      omega
    rw [hlen, hdata, List.take_left]
  have hstrip2 : strip_suffix (⟨p ++ ['.']⟩ : String) "." = some ⟨p⟩ := by
    have hsuf3 : (".".data) <:+ ((⟨p ++ ['.']⟩ : String).data) := by
      show ['.'] <:+ p ++ ['.']
      exact List.suffix_append p ['.']
    rw [strip_suffix, if_pos (List.isSuffixOf_iff_suffix.mpr hsuf3)]
    have hlen2 : (⟨p ++ ['.']⟩ : String).data.length - ".".data.length = p.length := by
      show (p ++ ['.']).length - 1 = p.length
      simp
    rw [hlen2]
    show some (⟨(p ++ ['.']).take p.length⟩ : String) = some ⟨p⟩
    rw [List.take_left' rfl]
  have hplabels : ∀ q ∈ splitChar '.' p, q ≠ [] := by
    intro q hq
    have hmem : String.mk q ∈ hostLabels h := by
      rw [hostLabels, hdata]
      have : (p ++ ['.']) ++ b.data = p ++ '.' :: b.data := by simp
      rw [this, splitChar_append]
      exact List.mem_map_of_mem String.mk (List.mem_append_left _ hq)
    intro hcon
    exact hlab _ hmem (by rw [hcon])
  rw [subdomain_form, hstrip1] at hana
  simp only [hstrip2, Option.getD_some] at hana
  have ha := Option.some.inj hana
  have htail := rsplitn3_tail_ne '.' p hplabels
  constructor
  · rw [← ha]
    rcases hx : (rsplitn3 '.' ⟨p⟩)[1]? with _ | s
    · simpa [hx] using hdr
    · simpa [hx] using htail.1 s hx
  · rw [← ha]
    rcases hx : (rsplitn3 '.' ⟨p⟩)[2]? with _ | s
    · simpa [hx] using hdb
    · simpa [hx] using htail.2 s hx

/-- Inversion of the page-domain loop: a `Page` outcome comes from some
analysis whose owner, repo and branch (after defaults) populate the
location. -/
theorem resolveSubdomains_page_inv (r : DefaultUrlResolver) (u : Url) (h : String) :
    ∀ (pds : List String) (loc : PageAssetLocation),
    resolveSubdomains r u h pds = some (.Page loc) →
    ∃ pd a, analyze_url u (some pd) = some a
      ∧ a.owner = some loc.page.owner
      ∧ loc.page.name = a.repo.getD r.default_repo
      ∧ loc.page.branch = a.branch.getD r.default_branch := by
  intro pds
  induction pds with
  | nil =>
    intro loc hres
    rw [resolveSubdomains] at hres
    split at hres <;> simp at hres
  | cons pd rest ih =>
    intro loc hres
    rw [resolveSubdomains] at hres
    split at hres
    · rcases hana : analyze_url u (some pd) with _ | a
      · simp only [hana] at hres
        exact ih loc hres
      · simp only [hana] at hres
        rcases how : a.owner with _ | ow
        · simp only [how] at hres
          split at hres
          · simp at hres
          · exact ih loc hres
        · simp only [how] at hres
          have hloc := UrlResolution.Page.inj (Option.some.inj hres)
          subst hloc
          exact ⟨pd, a, hana, how, rfl, rfl⟩
    · exact ih loc hres

/-- C9 as amended: for every URL resolving to `Page(loc)` with nonempty
configured defaults, `loc.page.name` and `loc.page.branch` are nonempty
PROVIDED that every path segment has nonempty components around its first `:`
and that no label of the URL's host is empty; without that proviso the parsed
repo or branch may be `Some("")`, which shadows the default (see the
counterexample). -/
theorem c9_page_fields_nonempty (r : DefaultUrlResolver) (u : Url)
    (loc : PageAssetLocation)
    (hres : r.resolve u = some (.Page loc))
    (hdr : r.default_repo ≠ "") (hdb : r.default_branch ≠ "")
    (hseg : ∀ s ∈ u.pathSegments, colon_components_ok s = true)
    (hlab : ∀ h, u.host = some h → ∀ l ∈ hostLabels h, l ≠ "") :
    loc.page.name ≠ "" ∧ loc.page.branch ≠ "" := by
  simp only [DefaultUrlResolver.resolve] at hres
  split at hres
  · simp only [analyze_url] at hres
    rcases how : (path_form u).owner with _ | ow
    · simp only [how] at hres
      simp at hres
    · simp only [how] at hres
      have hloc := UrlResolution.Page.inj (Option.some.inj hres)
      subst hloc
      exact path_form_defaults u r.default_repo r.default_branch hdr hdb hseg
  · rcases hhost : u.host with _ | h
    · simp only [hhost] at hres
      exact Option.noConfusion hres
    · simp only [hhost] at hres
      rcases hpd : r.page_domains with _ | pds
      · simp only [hpd] at hres
        split at hres <;> simp at hres
      · simp only [hpd] at hres
        obtain ⟨pd, a, hana, how, hname, hbranch⟩ :=
          resolveSubdomains_page_inv r u h pds loc hres
        simp only [analyze_url, hhost] at hana
        split at hana
        · have ha := Option.some.inj hana
          rw [hname, hbranch, ← ha]
          exact path_form_defaults u _ _ hdr hdb hseg
        · split at hana
          case isTrue hend =>
            rw [hname, hbranch]
            exact subdomain_form_defaults h pd u a r.default_repo r.default_branch
              hdr hdb hend (hlab h hhost) hana
          case isFalse => simp at hana

/-- C9 witness: under the `root_builtin` configuration, the URL
`http://home.domain/nya/site:main/x.txt` resolves to a `Page` whose name and
branch are nonempty. -/
theorem c9_page_fields_nonempty_witness :
    ∃ loc, DefaultUrlResolver.resolve (testResolver false)
        { host := some "home.domain", pathSegments := ["nya", "site:main", "x.txt"] }
      = some (.Page loc) ∧ loc.page.name ≠ "" ∧ loc.page.branch ≠ "" := by
  refine ⟨{ page := { owner := "nya", name := "site", branch := "main" }
            asset := "/x.txt" }, rfl, ?_⟩
  exact c9_page_fields_nonempty (testResolver false)
    { host := some "home.domain", pathSegments := ["nya", "site:main", "x.txt"] }
    { page := { owner := "nya", name := "site", branch := "main" }, asset := "/x.txt" }
    rfl (by decide) (by decide) (by decide)
    (by intro hh hhh
        have heq : hh = "home.domain" := (Option.some.inj hhh).symm
        subst heq
        decide)

/-- Lookup after a snapshot insert: the inserted key reads back the inserted
version, other keys are untouched. -/
theorem snapLookup_insert (m : List ((String × String × String) × String))
    (k k2 : String × String × String) (v : String) :
    snapLookup (snapInsert m k2 v) k = if k = k2 then some v else snapLookup m k := by
  induction m with
  | nil =>
    by_cases hk : k = k2
    · simp [snapInsert, snapLookup, hk]
    · have hb : (k2 == k) = false := by
        simp only [beq_eq_false_iff_ne]
        exact Ne.symm hk
      simp [snapInsert, snapLookup, hb, hk]
  | cons p m ih =>
    by_cases hp : p.1 = k2
    · have hpb : (p.1 != k2) = false := by simp [hp]
      have hstep : snapInsert (p :: m) k2 v = snapInsert m k2 v := by
        simp [snapInsert, List.filter_cons, hpb]
      rw [hstep, ih]
      by_cases hk : k = k2
      · simp [hk]
      · have hpk : (p.1 == k) = false := by
          simp only [beq_eq_false_iff_ne]
          rw [hp]
          exact Ne.symm hk
        simp [hk, snapLookup, List.find?, hpk]
    · have hpb : (p.1 != k2) = true := by simp [hp]
      have hstep : snapInsert (p :: m) k2 v = p :: snapInsert m k2 v := by
        simp [snapInsert, List.filter_cons, hpb]
      rw [hstep]
      by_cases hpk : p.1 = k
      · have hk2 : ¬(k = k2) := fun h => hp (hpk.trans h)
        have hbeq : (p.1 == k) = true := by simp [hpk]
        simp [snapLookup, List.find?, hbeq, hk2]
      · have hbeq : (p.1 == k) = false := by
          simp only [beq_eq_false_iff_ne]
          exact hpk
        have hlhs : snapLookup (p :: snapInsert m k2 v) k
            = snapLookup (snapInsert m k2 v) k := by
          simp [snapLookup, List.find?, hbeq]
        rw [hlhs, ih]
        by_cases hk : k = k2
        · simp [hk]
        · simp [hk, snapLookup, List.find?, hbeq]

/-- Lookup after the per-repo branch scan: the key reads its branch's commit
id when this repo and a target branch produced it, else whatever the
accumulator held. -/
theorem scanBranches_lookup (gb : String → String → String → Option BranchResp)
    (rp : SearchRepo) (k : String × String × String) :
    ∀ (ts : List String) (acc : List ((String × String × String) × String)),
    snapLookup (scanBranches gb rp ts acc) k =
      if rp.owner = k.1 ∧ rp.name = k.2.1 ∧ k.2.2 ∈ ts
          ∧ (branchVersion gb k.1 k.2.1 k.2.2).isSome
      then branchVersion gb k.1 k.2.1 k.2.2
      else snapLookup acc k := by
  intro ts
  induction ts with
  | nil =>
    intro acc
    simp [scanBranches]
  | cons t ts ih =>
    intro acc
    have hstep : scanBranches gb rp (t :: ts) acc
        = scanBranches gb rp ts
            (match branchVersion gb rp.owner rp.name t with
             | none => acc
             | some version => snapInsert acc (rp.owner, rp.name, t) version) := rfl
    rw [hstep, ih]
    rcases hbv : branchVersion gb rp.owner rp.name t with _ | v
    · -- this branch contributed nothing
      by_cases hc : rp.owner = k.1 ∧ rp.name = k.2.1 ∧ k.2.2 ∈ ts
          ∧ (branchVersion gb k.1 k.2.1 k.2.2).isSome
      · rw [if_pos hc, if_pos ⟨hc.1, hc.2.1, List.mem_cons_of_mem t hc.2.2.1, hc.2.2.2⟩]
      · rw [if_neg hc, if_neg ?_]
        rintro ⟨h1, h2, h3, h4⟩
        rcases List.mem_cons.1 h3 with h3a | h3b
        · rw [← h1, ← h2, h3a, hbv] at h4
          simp at h4
        · exact hc ⟨h1, h2, h3b, h4⟩
    · rw [snapLookup_insert]
      by_cases hc : rp.owner = k.1 ∧ rp.name = k.2.1 ∧ k.2.2 ∈ ts
          ∧ (branchVersion gb k.1 k.2.1 k.2.2).isSome
      · rw [if_pos hc, if_pos ⟨hc.1, hc.2.1, List.mem_cons_of_mem t hc.2.2.1, hc.2.2.2⟩]
      · rw [if_neg hc]
        by_cases hk : k = (rp.owner, rp.name, t)
        · have h1 : rp.owner = k.1 := by rw [hk]
          have h2 : rp.name = k.2.1 := by rw [hk]
          have h3 : k.2.2 = t := by rw [hk]
          have hbvk : branchVersion gb k.1 k.2.1 k.2.2 = some v := by
            rw [← h1, ← h2, h3, hbv]
          rw [if_pos hk, if_pos ⟨h1, h2, by rw [h3]; exact List.mem_cons_self t ts,
            by rw [hbvk]; rfl⟩, hbvk]
        · rw [if_neg hk, if_neg ?_]
          rintro ⟨h1, h2, h3, h4⟩
          rcases List.mem_cons.1 h3 with h3a | h3b
          · exact hk (by
              rcases k with ⟨k1, k2, k3⟩
              simp only at h1 h2 h3a
              rw [← h1, ← h2, h3a])
          · exact hc ⟨h1, h2, h3b, h4⟩

/-- Lookup after the full repo fold of `scanner_update`. -/
theorem scannerFold_lookup (gb : String → String → String → Option BranchResp)
    (ts : List String) (k : String × String × String) :
    ∀ (repos : List SearchRepo) (acc : List ((String × String × String) × String)),
    snapLookup (repos.foldl (fun acc rp => scanBranches gb rp ts acc) acc) k =
      if (∃ rp ∈ repos, rp.owner = k.1 ∧ rp.name = k.2.1) ∧ k.2.2 ∈ ts
          ∧ (branchVersion gb k.1 k.2.1 k.2.2).isSome
      then branchVersion gb k.1 k.2.1 k.2.2
      else snapLookup acc k := by
  intro repos
  induction repos with
  | nil =>
    intro acc
    simp
  | cons rp rest ih =>
    intro acc
    rw [List.foldl_cons, ih, scanBranches_lookup]
    by_cases hrest : (∃ q ∈ rest, q.owner = k.1 ∧ q.name = k.2.1) ∧ k.2.2 ∈ ts
        ∧ (branchVersion gb k.1 k.2.1 k.2.2).isSome
    · rcases hrest with ⟨⟨q, hq, hq1, hq2⟩, h3, h4⟩
      rw [if_pos ⟨⟨q, hq, hq1, hq2⟩, h3, h4⟩,
        if_pos ⟨⟨q, List.mem_cons_of_mem rp hq, hq1, hq2⟩, h3, h4⟩]
    · rw [if_neg hrest]
      by_cases hrp : rp.owner = k.1 ∧ rp.name = k.2.1 ∧ k.2.2 ∈ ts
          ∧ (branchVersion gb k.1 k.2.1 k.2.2).isSome
      · rw [if_pos hrp,
          if_pos ⟨⟨rp, List.mem_cons_self rp rest, hrp.1, hrp.2.1⟩, hrp.2.2.1, hrp.2.2.2⟩]
      · rw [if_neg hrp, if_neg ?_]
        rintro ⟨⟨q, hq, hq1, hq2⟩, h3, h4⟩
        rcases List.mem_cons.1 hq with hqa | hqb
        · exact hrp ⟨hqa ▸ hq1, hqa ▸ hq2, h3, h4⟩
        · exact hrest ⟨⟨q, hqb, hq1, hq2⟩, h3, h4⟩

/-- C7 counterexample: the scanner's search sets no archived filter
(`archived: None`, src/provider/forgejo/scanner.rs line 100), so an ARCHIVED
repository whose target branch has a commit id lands in the snapshot — the
claim requires archived repos to be excluded from the search. -/
theorem c7_counterexample :
    scanner_update [{ owner := "ao", name := "ar", archived := true }]
        (fun _ _ _ => some { commit := some (some "v7") }) ["pages"]
      = [(("ao", "ar", "pages"), "v7")] := rfl

/-- C7 as amended: after a successful scan cycle the snapshot maps
`(owner, repo, branch)` to `v` exactly when the upstream search returns a
repository named `(owner, repo)` — the search applies NO archived filter, so
archived repositories are included — `branch` is a target branch, and that
branch exists upstream with commit id `v` (assuming the upstream has at most
the 99999 repositories the unpaginated search requests). -/
theorem c7_snapshot_contents (repos : List SearchRepo)
    (gb : String → String → String → Option BranchResp)
    (ts : List String) (o r b v : String)
    (hlim : repos.length ≤ 99999) :
    snapLookup (scanner_update repos gb ts) (o, r, b) = some v ↔
      (∃ rp ∈ repos, rp.owner = o ∧ rp.name = r) ∧ b ∈ ts
      ∧ branchVersion gb o r b = some v := by
  have hsearch : repo_search repos scannerSearchQuery = repos := by
    simp only [repo_search, scannerSearchQuery]
    exact List.take_of_length_le hlim
  rw [scanner_update, hsearch, scannerFold_lookup]
  by_cases hc : (∃ rp ∈ repos, rp.owner = o ∧ rp.name = r) ∧ b ∈ ts
      ∧ (branchVersion gb o r b).isSome
  · rw [if_pos hc]
    constructor
    · intro hv
      exact ⟨hc.1, hc.2.1, hv⟩
    · intro hv
      exact hv.2.2
  · rw [if_neg hc]
    constructor
    · intro hv
      exact absurd hv (by simp [snapLookup])
    · rintro ⟨h1, h2, h3⟩
      exact absurd ⟨h1, h2, by rw [h3]; rfl⟩ hc

/-- C7 witness: a one-repo upstream (archived, branch `pages` at commit `v7`)
yields the snapshot entry `(ao, ar, pages) → v7`. -/
theorem c7_snapshot_contents_witness :
    snapLookup (scanner_update [{ owner := "ao", name := "ar", archived := true }]
        (fun _ _ _ => some { commit := some (some "v7") }) ["pages"])
      ("ao", "ar", "pages") = some "v7" := by
  exact (c7_snapshot_contents [{ owner := "ao", name := "ar", archived := true }]
    (fun _ _ _ => some { commit := some (some "v7") }) ["pages"] "ao" "ar" "pages" "v7"
    (by decide)).mpr
    ⟨⟨{ owner := "ao", name := "ar", archived := true }, by simp, rfl, rfl⟩,
      by simp, rfl⟩
